import Mathlib

/-!
A shallow embedding of `src/snesulate/src/cartridge.rs` (rsnes): loading a
SNES cartridge image, scanning the canonical header locations, and the
bank/offset address decoder.  Bytes are modelled as `Nat` (values `< 256`),
machine-integer wraparound is explicit (`% 2 ^ 16`, `% 2 ^ 32`, `% 2 ^ 64`),
slice-indexing panics are modelled by `Option`.
-/

namespace Snes

/-- `const MINIMUM_SIZE: usize = 0x8000;` -/
def MINIMUM_SIZE : Nat := 0x8000

/-- usize word size: `2 ^ 64`. -/
def USIZE : Nat := 2 ^ 64

/-- `u32::wrapping_shl`: the shift count is taken mod 32 and the product is
truncated to 32 bits. -/
def wrapShl32 (a n : Nat) : Nat := (a <<< (n % 32)) % 2 ^ 32

/-- `fn split_byte(byte: u8) -> (u8, u8) { (byte >> 4, byte & 15) }` -/
def split_byte (byte : Nat) : Nat × Nat := (byte >>> 4, byte &&& 15)

/-- `enum ReadRomError` -/
inductive ReadRomError where
  | TooSmall (size : Nat)
  | AlignError (size : Nat)
  | NoSuitableHeader
  deriving DecidableEq, Repr

/-- `enum RomType` -/
inductive RomType where
  | LoRom
  | HiRom
  | LoRomSDD1
  | LoRomSA1
  | ExHiRom
  | HiRomSPC7110
  deriving DecidableEq, Repr

/-- `RomType::from_byte` -/
def RomType.from_byte (byte : Nat) : Option RomType :=
  match byte with
  | 0 => some .LoRom
  | 1 => some .HiRom
  | 2 => some .LoRomSDD1
  | 3 => some .LoRomSA1
  | 5 => some .ExHiRom
  | 10 => some .HiRomSPC7110
  | _ => none

/-- `struct ExtendedHeader` -/
structure ExtendedHeader where
  maker : List Nat
  game : List Nat
  flash_size : Nat
  ram_size : Nat
  special_version : Nat
  deriving DecidableEq, Repr

/-- `enum OptExtendedHeader` -/
inductive OptExtendedHeader where
  | Old (subtype : Nat)
  | Later (subtype : Nat) (header : ExtendedHeader)
  | None
  deriving DecidableEq, Repr

/-- `struct Header` (the `name` string is kept as its list of byte values). -/
structure Header where
  name : List Nat
  speed : Nat
  rom_type : RomType
  extended : OptExtendedHeader
  is_fast : Bool
  coprocessor : Nat
  chips : Nat
  rom_size : Nat
  ram_size : Nat
  country : Nat
  checksum : Nat
  version : Nat
  deriving DecidableEq, Repr

/-- `matches!(c, 0x20..=0x7e)` -/
def isPrintable (c : Nat) : Bool := decide (0x20 ≤ c ∧ c ≤ 0x7e)

/-- One iteration of the title loop in `Header::from_bytes`: the accumulator
is `(name, score, len)`. -/
def titleStep (acc : List Nat × Nat × Nat) (c : Nat) : List Nat × Nat × Nat :=
  let name := if isPrintable c then acc.1 ++ [c] else acc.1
  let score := if isPrintable c then acc.2.1 + 2 else acc.2.1
  let len := if c = 0x20 then acc.2.2 - 1 else 21
  (name, score, len)

/-- `Header::from_bytes`: decode one 80-byte window (16 bytes of potential
extended header followed by the 64 primary header bytes) into a header and
its plausibility score.  The `assert_eq!(full_bytes.len(), 80)` panic is
modelled by returning `none` for windows of any other length. -/
def Header.from_bytes (w : List Nat) : Option (Header × Nat) :=
  if w.length = 80 then
    let b : Nat → Nat := fun i => w.getD (16 + i) 0
    let t := ((w.drop 16).take 21).foldl titleStep ([], 0, 21)
    let name := t.1.take t.2.2
    let score := t.2.1
    let speed := (split_byte (b 21)).1
    let rom_type_byte := (split_byte (b 21)).2
    let score := if speed &&& 0xfe = 1 then score + 24 else score
    let is_fast := speed &&& 1 == 1
    match RomType.from_byte rom_type_byte with
    | none => none
    | some rom_type =>
      let coprocessor := (split_byte (b 22)).1
      let chips := (split_byte (b 22)).2
      let rom_size := wrapShl32 0x400 (b 23)
      let ram_size := wrapShl32 0x400 (b 24)
      let country := b 25
      let score := if country ≤ 20 then score + 10 else score
      let developer_id := b 26
      let version := b 27
      let checksum_complement := b 28 + 256 * b 29
      let checksum := b 30 + 256 * b 31
      let score := if checksum_complement = 65535 - checksum then score + 32 else score
      let extended :=
        if developer_id = 51 then
          OptExtendedHeader.Later (w.getD 15 0)
            { maker := [w.getD 0 0, w.getD 1 0]
              game := [w.getD 2 0, w.getD 3 0, w.getD 4 0, w.getD 5 0]
              flash_size := wrapShl32 0x400 (w.getD 12 0)
              ram_size := wrapShl32 0x400 (w.getD 13 0)
              special_version := w.getD 14 0 }
        else if b 20 = 0 then OptExtendedHeader.Old (w.getD 15 0)
        else OptExtendedHeader.None
      some
        ({ name := name, speed := speed, rom_type := rom_type, extended := extended
           is_fast := is_fast, coprocessor := coprocessor, chips := chips
           rom_size := rom_size, ram_size := ram_size, country := country
           checksum := checksum, version := version }, score)
  else none

/-- `struct Cartridge` -/
structure Cartridge where
  header : Header
  is_lorom : Bool
  rom : List Nat
  ram : List Nat
  deriving DecidableEq, Repr

/-- The copier-header strip in `Cartridge::from_bytes`:
`let bytes = if bytes.len() & 0x3ff == 0 { bytes } else { &bytes[512..] };` -/
def strip (bytes : List Nat) : List Nat :=
  if bytes.length &&& 0x3ff = 0 then bytes else bytes.drop 512

/-- The header-probe table of `Cartridge::from_bytes`:
`[(0x7fb0, true), (0xffb0, false), (0x40ffb0, false)]`. -/
def headerProbes : List (Nat × Bool) := [(0x7fb0, true), (0xffb0, false), (0x40ffb0, false)]

/-- `if bytes.len() >= addr + 80 { Header::from_bytes(&bytes[addr..addr + 80]) }` -/
def decodeAt (bytes : List Nat) (addr : Nat) : Option (Header × Nat) :=
  if addr + 80 ≤ bytes.length then Header.from_bytes ((bytes.drop addr).take 80)
  else none

/-- One iteration of the scan loop of `Cartridge::from_bytes`: keep the new
candidate exactly when there is no candidate yet or the new score is
strictly greater. -/
def scanStep (bytes : List Nat) (acc : Option (Header × Nat × Bool)) (p : Nat × Bool) :
    Option (Header × Nat × Bool) :=
  match decodeAt bytes p.1, acc with
  | some (new, score), some (_, s, _) =>
      if s < score then some (new, score, p.2) else acc
  | some (new, score), none => some (new, score, p.2)
  | none, _ => acc

/-- The header scan loop of `Cartridge::from_bytes`. -/
def scanHeader (bytes : List Nat) : Option (Header × Nat × Bool) :=
  headerProbes.foldl (scanStep bytes) none

/-- The ROM-buffer fill loop of `Cartridge::from_bytes`:
`for chunk in rom.chunks_mut(bytes.len()) { chunk.copy_from_slice(&bytes[..chunk.len()]) }`
over a fresh buffer of length `n`. -/
def tileChunks (bytes : List Nat) (n : Nat) : List Nat :=
  if bytes.length = 0 then []
  else if n < bytes.length then bytes.take n
  else bytes ++ tileChunks bytes (n - bytes.length)
termination_by n
decreasing_by omega

/-- `rom.iter().fold(0u16, |b, i| b.wrapping_add((*i).into()))` -/
def checksumOf (rom : List Nat) : Nat :=
  rom.foldl (fun b i => (b + i) % 2 ^ 16) 0

/-- `Cartridge::from_bytes`.  The `println!` checksum warning is modelled by
the returned `Bool` (true exactly when the warning would be printed). -/
def Cartridge.from_bytes (bytes : List Nat) : Except ReadRomError (Cartridge × Bool) :=
  if bytes.length < MINIMUM_SIZE then .error (.TooSmall bytes.length)
  else if ¬ bytes.length &&& 0x1ff = 0 then .error (.AlignError bytes.length)
  else
    match scanHeader (strip bytes) with
    | none => .error .NoSuitableHeader
    | some (header, _score, is_lorom) =>
      let rom := tileChunks (strip bytes) (max header.rom_size (strip bytes).length)
      let checksum := checksumOf rom
      .ok ({ header := header, is_lorom := is_lorom, rom := rom
             ram := List.replicate header.ram_size 0 },
           checksum != header.checksum)

/-- Modelled from the spec: `Addr24` lives in `src/device.rs`, which is not
part of the sources; per the spec it is "a bank byte plus a 16-bit offset". -/
structure Addr24 where
  bank : Nat
  addr : Nat
  deriving DecidableEq, Repr

/-- Modelled from the spec: the `Access` capability of `src/device.rs` is
"an abstract read-or-write operation ... a byte value for reads, an
acknowledgement for writes". -/
inductive Access where
  | read
  | write (v : Nat)
  deriving DecidableEq, Repr

/-- Modelled from the spec: `access_slice` applies the operation "uniformly
to a computed buffer index"; a read returns the byte, a write stores it.
An out-of-bounds index (a panic in the original) is modelled as `none`. -/
def Access.access_slice : Access → List Nat → Nat → Option (List Nat × Nat)
  | .read, buf, i => (buf.get? i).map (fun v => (buf, v))
  | .write v, buf, i => if i < buf.length then some (buf.set i v, v) else none

/-- `Cartridge::access_ram`.  `self.ram.len() - 1` is usize arithmetic, so
the subtraction wraps modulo `2 ^ 64`; a panic is `none`. -/
def Cartridge.access_ram (c : Cartridge) (a : Access) (index : Nat) :
    Option (Cartridge × Nat) :=
  let mask := (c.ram.length + (USIZE - 1)) % USIZE
  (a.access_slice c.ram (index &&& mask)).map (fun p => ({ c with ram := p.1 }, p.2))

/-- `Cartridge::access_rom`. -/
def Cartridge.access_rom (c : Cartridge) (a : Access) (index : Nat) :
    Option (Cartridge × Nat) :=
  let mask := (c.rom.length + (USIZE - 1)) % USIZE
  (a.access_slice c.rom (index &&& mask)).map (fun p => ({ c with rom := p.1 }, p.2))

/-- `Cartridge::access`: the outer `none` is the unmapped (open bus) result;
`some none` is a panic inside the selected buffer access. -/
def Cartridge.access (c : Cartridge) (a : Access) (addr : Addr24) :
    Option (Option (Cartridge × Nat)) :=
  if c.is_lorom then
    if ((0x70 ≤ addr.bank ∧ addr.bank ≤ 0x7d) ∨ 0xf0 ≤ addr.bank) ∧ addr.addr ≤ 0x7fff then
      some (c.access_ram a (((addr.bank &&& 0xf) <<< 15) ||| addr.addr))
    else if 0x40 ≤ addr.bank ∨ 0x8000 ≤ addr.addr then
      some (c.access_rom a (((addr.bank &&& 0x7f) <<< 15) ||| (addr.addr &&& 0x7fff)))
    else none
  else
    if addr.bank &&& 0x7f ≤ 0x3f ∧ (0x6000 ≤ addr.addr ∧ addr.addr ≤ 0x7fff) then
      some (c.access_ram a (((addr.bank &&& 0x3f) <<< 13) ||| (addr.addr &&& 0x1fff)))
    else if 0x40 ≤ addr.bank &&& 0x7f ∨ 0x8000 ≤ addr.addr then
      some (c.access_rom a (((addr.bank &&& 0x3f) <<< 16) ||| addr.addr))
    else none

/-- The RAM arm of the decoder: the bank/offset combinations that select the
RAM buffer, per mapping mode (the RAM arm is matched first in the source). -/
def ramMapped : Bool → Nat → Nat → Prop
  | true, b, o => ((0x70 ≤ b ∧ b ≤ 0x7d) ∨ 0xf0 ≤ b) ∧ o ≤ 0x7fff
  | false, b, o => b &&& 0x7f ≤ 0x3f ∧ (0x6000 ≤ o ∧ o ≤ 0x7fff)

instance : ∀ l b o, Decidable (ramMapped l b o)
  | true, _, _ => by unfold ramMapped; infer_instance
  | false, _, _ => by unfold ramMapped; infer_instance

/-! ### Helper lemmas -/

theorem usize_sub_one_mod (len : Nat) (h1 : 0 < len) (h2 : len ≤ USIZE) :
    (len + (USIZE - 1)) % USIZE = len - 1 := by
  have he : len + (USIZE - 1) = (len - 1) + USIZE := by
    have : 0 < USIZE := by decide
    omega
  rw [he, Nat.add_mod_right, Nat.mod_eq_of_lt (by omega)]

theorem access_ram_eq (c : Cartridge) (a : Access) (index : Nat)
    (h1 : 0 < c.ram.length) (h2 : c.ram.length ≤ USIZE) :
    c.access_ram a index =
      (a.access_slice c.ram (index &&& (c.ram.length - 1))).map
        (fun p => ({ c with ram := p.1 }, p.2)) := by
  unfold Cartridge.access_ram
  rw [usize_sub_one_mod c.ram.length h1 h2]

theorem access_rom_eq (c : Cartridge) (a : Access) (index : Nat)
    (h1 : 0 < c.rom.length) (h2 : c.rom.length ≤ USIZE) :
    c.access_rom a index =
      (a.access_slice c.rom (index &&& (c.rom.length - 1))).map
        (fun p => ({ c with rom := p.1 }, p.2)) := by
  unfold Cartridge.access_rom
  rw [usize_sub_one_mod c.rom.length h1 h2]

/-! ### Concrete fixtures for witnesses -/

/-- A minimal concrete header value for building cartridge fixtures. -/
def hdr0 : Header := ⟨[], 0, .LoRom, .None, false, 0, 0, 0, 0, 0, 0, 0⟩

/-- A small 32 KiB-mode cartridge: two ROM bytes, one RAM byte. -/
def cartX : Cartridge := ⟨hdr0, true, [5, 6], [7]⟩

/-- A 32 KiB-mode cartridge whose RAM buffer has length zero. -/
def cartZ : Cartridge := ⟨hdr0, true, [0], []⟩

/-- A 32 KiB-mode cartridge used to observe writes: ROM `[1, 2]`, RAM `[0]`. -/
def cartW : Cartridge := ⟨hdr0, true, [1, 2], [0]⟩

/-- A 32 KiB-mode cartridge with two RAM slots. -/
def cartS : Cartridge := ⟨hdr0, true, [0], [0, 0]⟩

/-! ### C3: the 32 KiB-granularity decode table -/

/-- C3: in the 32 KiB-granularity mode, banks `0x70..=0x7d` or `>= 0xf0`
with offset `< 0x8000` perform a RAM access at `((b & 0xf) << 15) | o`
masked by `RAM length - 1`; otherwise bank `>= 0x40` or offset `>= 0x8000`
performs a ROM access at `((b & 0x7f) << 15) | (o & 0x7fff)` masked by
`ROM length - 1`; every other address is unmapped.  In particular
`(0x00, 0x7fff)` is unmapped, `(0x00, 0x8000)` is ROM index 0, and
`(0x7e, 0x9000)` lands in the ROM case. -/
theorem lorom_decode_table (c : Cartridge) (a : Access) (b o : Nat)
    (hl : c.is_lorom = true) (hb : b < 256) (ho : o < 65536)
    (hram1 : 0 < c.ram.length) (hram2 : c.ram.length ≤ USIZE)
    (hrom1 : 0 < c.rom.length) (hrom2 : c.rom.length ≤ USIZE) :
    ((((0x70 ≤ b ∧ b ≤ 0x7d) ∨ 0xf0 ≤ b) ∧ o < 0x8000 →
      c.access a ⟨b, o⟩ =
        some ((a.access_slice c.ram
            ((((b &&& 0xf) <<< 15) ||| o) &&& (c.ram.length - 1))).map
          (fun p => ({ c with ram := p.1 }, p.2))))
    ∧ (¬ ((((0x70 ≤ b ∧ b ≤ 0x7d) ∨ 0xf0 ≤ b) ∧ o < 0x8000)) →
        (0x40 ≤ b ∨ 0x8000 ≤ o) →
      c.access a ⟨b, o⟩ =
        some ((a.access_slice c.rom
            ((((b &&& 0x7f) <<< 15) ||| (o &&& 0x7fff)) &&& (c.rom.length - 1))).map
          (fun p => ({ c with rom := p.1 }, p.2))))
    ∧ (¬ ((((0x70 ≤ b ∧ b ≤ 0x7d) ∨ 0xf0 ≤ b) ∧ o < 0x8000)) →
        ¬ (0x40 ≤ b ∨ 0x8000 ≤ o) →
      c.access a ⟨b, o⟩ = none))
    ∧ c.access a ⟨0x00, 0x7fff⟩ = none
    ∧ c.access a ⟨0x00, 0x8000⟩ =
        some ((a.access_slice c.rom 0).map (fun p => ({ c with rom := p.1 }, p.2)))
    ∧ c.access a ⟨0x7e, 0x9000⟩ =
        some ((a.access_slice c.rom
            ((((0x7e &&& 0x7f) <<< 15) ||| (0x9000 &&& 0x7fff)) &&& (c.rom.length - 1))).map
          (fun p => ({ c with rom := p.1 }, p.2))) := by
  have hramMask := access_ram_eq c a
  have hromMask := access_rom_eq c a
  refine ⟨⟨?_, ?_, ?_⟩, ?_, ?_, ?_⟩
  · intro hcond
    simp only [Cartridge.access, hl, if_true]
    rw [if_pos ⟨hcond.1, by omega⟩, hramMask _ hram1 hram2]
    simp [hl]
  · intro hnot hcond
    simp only [Cartridge.access, hl, if_true]
    rw [if_neg (fun hc => hnot ⟨hc.1, by omega⟩), if_pos hcond,
      hromMask _ hrom1 hrom2]
    simp [hl]
  · intro hnot hcond2
    simp only [Cartridge.access, hl, if_true]
    rw [if_neg (fun hc => hnot ⟨hc.1, by omega⟩), if_neg hcond2]
  · simp only [Cartridge.access, hl, if_true]
    rw [if_neg (by omega), if_neg (by omega)]
  · simp only [Cartridge.access, hl, if_true]
    rw [if_neg (by omega), if_pos (by omega), hromMask _ hrom1 hrom2]
    rw [show ((0 &&& 0x7f) <<< 15 ||| (0x8000 &&& 0x7fff) : Nat) = 0 from by decide,
      Nat.zero_and]
    simp [hl]
  · simp only [Cartridge.access, hl, if_true]
    rw [if_neg (by omega), if_pos (by omega), hromMask _ hrom1 hrom2]
    simp [hl]

/-- Witness for C3 at the concrete cartridge `cartX` and address
`(0x00, 0x7fff)`. -/
theorem lorom_decode_table_witness :
    cartX.access .read ⟨0x00, 0x7fff⟩ = none :=
  (lorom_decode_table cartX .read 0 0x7fff rfl (by decide) (by decide)
    (by decide) (by decide) (by decide) (by decide)).2.1

/-! ### C7: zero-length RAM -/

/-- C7 (evaluation of the code at the failing input): on a cartridge whose
RAM buffer is empty, an access at the RAM-mapped address `(0x70, 0x0000)`
is not reported as unmapped (`none`); the decoder selects the RAM arm, the
mask underflows, and the slice access panics (`some none`). -/
theorem ram_zero_access_panics :
    cartZ.access .read ⟨0x70, 0x0000⟩ = some none ∧
      cartZ.access .read ⟨0x70, 0x0000⟩ ≠ none := by
  constructor
  · decide
  · decide

/-! ### Shape lemmas for the accessor -/

theorem access_slice_some (a : Access) (buf : List Nat) (i : Nat)
    (p : List Nat × Nat) (h : a.access_slice buf i = some p) :
    p.1.length = buf.length ∧ (a = .read → p.1 = buf) := by
  cases a with
  | read =>
    simp only [Access.access_slice] at h
    rcases Option.map_eq_some'.mp h with ⟨v, _, he⟩
    subst he
    exact ⟨rfl, fun _ => rfl⟩
  | write v =>
    simp only [Access.access_slice] at h
    split at h
    · cases h
      refine ⟨List.length_set .., fun hc => ?_⟩
      cases hc
    · cases h

theorem access_ram_shape (c : Cartridge) (a : Access) (i : Nat)
    (c₂ : Cartridge) (out : Nat) (h : c.access_ram a i = some (c₂, out)) :
    c₂.rom = c.rom ∧ c₂.is_lorom = c.is_lorom ∧ c₂.header = c.header ∧
      c₂.ram.length = c.ram.length ∧ (a = .read → c₂ = c) := by
  unfold Cartridge.access_ram at h
  rcases Option.map_eq_some'.mp h with ⟨p, hp, he⟩
  obtain ⟨hlen, hread⟩ := access_slice_some a c.ram _ p hp
  cases he
  refine ⟨rfl, rfl, rfl, hlen, fun hr => ?_⟩
  rw [hread hr]

theorem access_rom_shape (c : Cartridge) (a : Access) (i : Nat)
    (c₂ : Cartridge) (out : Nat) (h : c.access_rom a i = some (c₂, out)) :
    c₂.ram = c.ram ∧ c₂.is_lorom = c.is_lorom ∧ c₂.header = c.header ∧
      c₂.rom.length = c.rom.length ∧ (a = .read → c₂ = c) := by
  unfold Cartridge.access_rom at h
  rcases Option.map_eq_some'.mp h with ⟨p, hp, he⟩
  obtain ⟨hlen, hread⟩ := access_slice_some a c.rom _ p hp
  cases he
  refine ⟨rfl, rfl, rfl, hlen, fun hr => ?_⟩
  rw [hread hr]

/-! ### C8: which buffer an access can mutate -/

/-- C8 counterexample: the claim "the ROM buffer contents are unchanged
after every access" fails at the concrete cartridge `cartW` and the
write access of value 9 at the ROM-mapped address `(0x80, 0x0000)`: the
resulting cartridge's ROM is `[9, 2]`, which differs from `cartW`'s ROM
`[1, 2]`. -/
theorem rom_write_mutates_rom :
    cartW.access (.write 9) ⟨0x80, 0x0000⟩ =
        some (some ({ cartW with rom := [9, 2] }, 9)) ∧
      ({ cartW with rom := [9, 2] } : Cartridge).rom ≠ cartW.rom := by
  constructor
  · decide
  · decide

/-- C8 amended: a read access leaves the cartridge unchanged, and an access
at a RAM-mapped address leaves the ROM buffer unchanged; but a write
access at a ROM-mapped address mutates the ROM buffer (see the
counterexample). -/
theorem access_effects (c : Cartridge) (a : Access) (p : Addr24)
    (c₂ : Cartridge) (out : Nat) (h : c.access a p = some (some (c₂, out))) :
    (a = .read → c₂ = c) ∧
      (ramMapped c.is_lorom p.bank p.addr → c₂.rom = c.rom) := by
  cases hl : c.is_lorom with
  | true =>
    simp only [Cartridge.access, hl, if_true] at h
    split at h
    · injection h with h'
      obtain ⟨hrom, _, _, _, hread⟩ := access_ram_shape c a _ c₂ out h'
      exact ⟨hread, fun _ => hrom⟩
    · rename_i hneg
      split at h
      · injection h with h'
        obtain ⟨_, _, _, _, hread⟩ := access_rom_shape c a _ c₂ out h'
        exact ⟨hread, fun hm => absurd hm hneg⟩
      · cases h
  | false =>
    simp only [Cartridge.access, hl, Bool.false_eq_true, if_false] at h
    split at h
    · injection h with h'
      obtain ⟨hrom, _, _, _, hread⟩ := access_ram_shape c a _ c₂ out h'
      exact ⟨hread, fun _ => hrom⟩
    · rename_i hneg
      split at h
      · injection h with h'
        obtain ⟨_, _, _, _, hread⟩ := access_rom_shape c a _ c₂ out h'
        exact ⟨hread, fun hm => absurd hm hneg⟩
      · cases h

/-- Witness for C8's amended theorem: a concrete read on `cartW`. -/
theorem access_effects_witness :
    (Access.read = Access.read → cartW = cartW) ∧
      (ramMapped cartW.is_lorom 0x80 0x0000 → cartW.rom = cartW.rom) :=
  access_effects cartW .read ⟨0x80, 0x0000⟩ cartW 1 (by decide)

/-! ### C6: RAM write/read round trip -/

/-- C6: on a cartridge whose RAM size is a nonzero power of two, writing a
value through the accessor at a RAM-mapped address and reading the same
address back returns the written value, in either mapping mode. -/
theorem ram_write_read_roundtrip (c : Cartridge) (b o v : Nat)
    (hpow : ∃ k, c.ram.length = 2 ^ k) (hlen : 0 < c.ram.length)
    (hle : c.ram.length ≤ USIZE) (hmap : ramMapped c.is_lorom b o) :
    ∃ c₂ : Cartridge,
      c.access (.write v) ⟨b, o⟩ = some (some (c₂, v)) ∧
        c₂.access .read ⟨b, o⟩ = some (some (c₂, v)) := by
  clear hpow
  cases hl : c.is_lorom with
  | true =>
    rw [hl] at hmap
    have hmap' : ((0x70 ≤ b ∧ b ≤ 0x7d) ∨ 0xf0 ≤ b) ∧ o ≤ 0x7fff := hmap
    set j := (((b &&& 0xf) <<< 15) ||| o) &&& (c.ram.length - 1) with hj
    have hjlt : j < c.ram.length :=
      Nat.lt_of_le_of_lt Nat.and_le_right (by omega)
    refine ⟨{ c with ram := c.ram.set j v }, ?_, ?_⟩
    · simp only [Cartridge.access, hl, if_true]
      rw [if_pos hmap']
      simp only [Cartridge.access_ram, Access.access_slice,
        usize_sub_one_mod c.ram.length hlen hle, ← hj]
      rw [if_pos hjlt]
      simp [hl]
    · simp only [Cartridge.access, hl, if_true]
      rw [if_pos hmap']
      simp only [Cartridge.access_ram, Access.access_slice, List.length_set,
        usize_sub_one_mod c.ram.length hlen hle, ← hj]
      rw [List.get?_eq_getElem?, List.getElem?_set_self hjlt]
      simp [hl]
  | false =>
    rw [hl] at hmap
    have hmap' : b &&& 0x7f ≤ 0x3f ∧ (0x6000 ≤ o ∧ o ≤ 0x7fff) := hmap
    set j := (((b &&& 0x3f) <<< 13) ||| (o &&& 0x1fff)) &&& (c.ram.length - 1) with hj
    have hjlt : j < c.ram.length :=
      Nat.lt_of_le_of_lt Nat.and_le_right (by omega)
    refine ⟨{ c with ram := c.ram.set j v }, ?_, ?_⟩
    · simp only [Cartridge.access, hl, Bool.false_eq_true, if_false]
      rw [if_pos hmap']
      simp only [Cartridge.access_ram, Access.access_slice,
        usize_sub_one_mod c.ram.length hlen hle, ← hj]
      rw [if_pos hjlt]
      simp [hl]
    · simp only [Cartridge.access, hl, Bool.false_eq_true, if_false]
      rw [if_pos hmap']
      simp only [Cartridge.access_ram, Access.access_slice, List.length_set,
        usize_sub_one_mod c.ram.length hlen hle, ← hj]
      rw [List.get?_eq_getElem?, List.getElem?_set_self hjlt]
      simp [hl]

/-- Witness for C6: write 9 at `(0x70, 0x0001)` on `cartS` (RAM length
`2 = 2 ^ 1`) and read it back. -/
theorem ram_write_read_roundtrip_witness :
    ∃ c₂ : Cartridge,
      cartS.access (.write 9) ⟨0x70, 0x0001⟩ = some (some (c₂, 9)) ∧
        c₂.access .read ⟨0x70, 0x0001⟩ = some (some (c₂, 9)) :=
  ram_write_read_roundtrip cartS 0x70 0x0001 9 ⟨1, rfl⟩ (by decide) (by decide)
    (by decide)

/-! ### Characterisation of the header decoder -/

/-- Length of the maximal run of trailing space bytes. -/
def trailingSpaces (l : List Nat) : Nat :=
  (l.reverse.takeWhile (fun c => c == 0x20)).length

/-- The stored title, as the decoder actually computes it: the printable
bytes, truncated to `21 - (number of trailing spaces of the raw title)`. -/
def specName (w : List Nat) : List Nat :=
  (((w.drop 16).take 21).filter isPrintable).take
    (21 - trailingSpaces ((w.drop 16).take 21))

/-- The decoder's score: 2 per printable title byte, 10 for a known country,
32 for a matching checksum/complement pair — and no speed-indication term,
since `speed & !1 == 1` is unsatisfiable. -/
def specScore (w : List Nat) : Nat :=
  2 * (((w.drop 16).take 21).filter isPrintable).length +
    (if w.getD 41 0 ≤ 20 then 10 else 0) +
    (if w.getD 44 0 + 256 * w.getD 45 0 = 65535 - (w.getD 46 0 + 256 * w.getD 47 0)
      then 32 else 0)

/-- The fast-cycle flag: bit 0 of the speed byte's high nibble. -/
def specFast (w : List Nat) : Bool := (w.getD 37 0 >>> 4) &&& 1 == 1

/-- The extended-header tag as the decoder computes it. -/
def specExtended (w : List Nat) : OptExtendedHeader :=
  if w.getD 42 0 = 51 then
    OptExtendedHeader.Later (w.getD 15 0)
      { maker := [w.getD 0 0, w.getD 1 0]
        game := [w.getD 2 0, w.getD 3 0, w.getD 4 0, w.getD 5 0]
        flash_size := wrapShl32 0x400 (w.getD 12 0)
        ram_size := wrapShl32 0x400 (w.getD 13 0)
        special_version := w.getD 14 0 }
  else if w.getD 36 0 = 0 then OptExtendedHeader.Old (w.getD 15 0)
  else OptExtendedHeader.None

/-- The full decoded header, field by field. -/
def specHeader (w : List Nat) (rt : RomType) : Header :=
  { name := specName w
    speed := w.getD 37 0 >>> 4
    rom_type := rt
    extended := specExtended w
    is_fast := specFast w
    coprocessor := w.getD 38 0 >>> 4
    chips := w.getD 38 0 &&& 15
    rom_size := wrapShl32 0x400 (w.getD 39 0)
    ram_size := wrapShl32 0x400 (w.getD 40 0)
    country := w.getD 41 0
    checksum := w.getD 46 0 + 256 * w.getD 47 0
    version := w.getD 43 0 }

theorem trailingSpaces_snoc (l : List Nat) (c : Nat) :
    trailingSpaces (l ++ [c]) = if c = 0x20 then trailingSpaces l + 1 else 0 := by
  unfold trailingSpaces
  rw [List.reverse_append]
  by_cases hc : c = 0x20 <;>
    simp [hc, List.takeWhile_cons, Nat.add_comm]

theorem trailingSpaces_le (l : List Nat) : trailingSpaces l ≤ l.length := by
  unfold trailingSpaces
  calc (l.reverse.takeWhile (fun c => c == 0x20)).length
      ≤ l.reverse.length := (List.takeWhile_prefix _).length_le
    _ = l.length := List.length_reverse l

/-- The title loop computes: kept printable bytes, twice their count, and a
length tracker equal to `init - |l|` when `l` is all spaces and
`21 - trailingSpaces l` otherwise. -/
theorem titleFold (l nm : List Nat) (sc ln : Nat) :
    l.foldl titleStep (nm, sc, ln) =
      (nm ++ l.filter isPrintable, sc + 2 * (l.filter isPrintable).length,
        if trailingSpaces l = l.length then ln - l.length
        else 21 - trailingSpaces l) := by
  induction l using List.reverseRecOn with
  | nil => simp [trailingSpaces]
  | append_singleton l c ih =>
    rw [List.foldl_append, ih, List.foldl_cons, List.foldl_nil]
    unfold titleStep
    have hts := trailingSpaces_snoc l c
    have htle := trailingSpaces_le l
    simp only [Prod.mk.injEq]
    refine ⟨?_, ?_, ?_⟩
    · cases hp : isPrintable c <;>
        simp [List.filter_append, hp, List.append_assoc]
    · cases hp : isPrintable c <;>
        simp [List.filter_append, hp, List.length_append] <;> omega
    · rw [hts]
      by_cases hc : c = 0x20
      · rw [if_pos hc, if_pos hc, List.length_append, List.length_singleton]
        split
        · rw [if_pos (by omega)]
          omega
        · rename_i hall
          rw [if_neg (by omega)]
          omega
      · rw [if_neg hc, if_neg hc, List.length_append, List.length_singleton,
          if_neg (by omega)]

theorem and_254_ne_one (x : Nat) : ¬ x &&& 254 = 1 := by
  intro h
  have h0 : (x &&& 254).testBit 0 = true := by rw [h]; rfl
  rw [Nat.testBit_and] at h0
  rw [show Nat.testBit 254 0 = false from rfl, Bool.and_false] at h0
  cases h0

/-- `Header::from_bytes` on any 80-byte window equals the field-by-field
characterisation: it succeeds iff the mapping-mode nibble is recognised,
and then yields `specHeader` and `specScore`. -/
theorem from_bytes_char (w : List Nat) (h80 : w.length = 80) :
    Header.from_bytes w =
      (RomType.from_byte (w.getD 37 0 &&& 15)).map
        (fun rt => (specHeader w rt, specScore w)) := by
  have hlen : ((w.drop 16).take 21).length = 21 := by
    simp [List.length_take, List.length_drop, h80]
  unfold Header.from_bytes
  rw [if_pos h80]
  simp only [split_byte]
  rw [titleFold]
  rw [if_neg (and_254_ne_one _)]
  cases hrt : RomType.from_byte (w.getD (16 + 21) 0 &&& 15) with
  | none => rfl
  | some rt =>
    simp only [Option.map_some', Option.some.injEq, Prod.mk.injEq]
    constructor
    · simp only [specHeader, specName, specFast, specExtended, Header.mk.injEq]
      norm_num [h80]
      split <;> omega
    · simp only [specScore]
      norm_num
      split <;> split <;> omega

/-! ### Concrete header windows -/

/-- An all-zero 80-byte window (decodes: LoRom, slow, score 10). -/
def windowS0 : List Nat := List.replicate 80 0

/-- Zero window whose speed/mapping byte is `0x10`: the high nibble has
bit 0 set, bit 1 clear. -/
def windowS1 : List Nat := (List.replicate 80 0).set 37 0x10

/-- Zero window whose ROM-size byte is 22 (`1 KiB << 22 = 2 ^ 32` overflows
to 0 in u32). -/
def windowR : List Nat := (List.replicate 80 0).set 39 22

/-- Zero window whose title bytes are: one unprintable `0x00`, one `'A'`,
then nineteen spaces. -/
def windowT : List Nat :=
  (List.range 19).foldl (fun l i => l.set (18 + i) 0x20)
    ((List.replicate 80 0).set 17 0x41)

/-! ### C2: speed scoring and the fast-cycle flag -/

/-- C2 counterexample: `windowS1`'s speed high nibble is 1 (bit 0 set), yet
its score is 10 — identical to the all-zero `windowS0` and smaller than the
24-point speed increment, so the increment was not added — and its
fast-cycle flag is `true` although bit 1 of the nibble is clear. -/
theorem speed_claim_cex :
    (Header.from_bytes windowS1).map (fun p => (p.1.is_fast, p.2)) =
        some (true, 10) ∧
      (Header.from_bytes windowS0).map (fun p => (p.1.is_fast, p.2)) =
        some (false, 10) ∧
      (10 : Nat) < 24 :=
  ⟨by decide, by decide, by decide⟩

/-- C2 (amended): on every decodable 80-byte window the score equals
`specScore` — which contains no speed-indication term, because the
condition `speed & !1 == 1` is unsatisfiable — and the fast-cycle flag is
bit 0 (not bit 1) of the speed byte's high nibble. -/
theorem speed_scoring (w : List Nat) (h80 : w.length = 80)
    (hs : (Header.from_bytes w).isSome = true) :
    (Header.from_bytes w).map (fun p => (p.1.is_fast, p.2)) =
      some (specFast w, specScore w) := by
  rw [from_bytes_char w h80] at hs ⊢
  cases hrt : RomType.from_byte (w.getD 37 0 &&& 15) with
  | none => rw [hrt] at hs; simp at hs
  | some rt => rfl

/-- Witness for C2's amended theorem at `windowS1`. -/
theorem speed_scoring_witness :
    (Header.from_bytes windowS1).map (fun p => (p.1.is_fast, p.2)) =
      some (specFast windowS1, specScore windowS1) :=
  speed_scoring windowS1 (by decide) (by decide)

/-! ### C9: declared ROM/RAM sizes -/

/-- C9 counterexample: a window whose ROM-size byte is 22 decodes to a
declared ROM size of 0, not `1024 * 2 ^ 22 = 2 ^ 32`. -/
theorem declared_sizes_cex :
    (Header.from_bytes windowR).map (fun p => p.1.rom_size) = some 0 ∧
      (0 : Nat) ≠ 0x400 * 2 ^ 22 :=
  ⟨by decide, by decide⟩

/-- C9 (amended): the declared ROM and RAM sizes are
`1024 * 2 ^ (n % 32) mod 2 ^ 32` for the raw size byte `n` (u32
`wrapping_shl`), which equals `1024 * 2 ^ n` only for `n ≤ 21`. -/
theorem declared_sizes (w : List Nat) (h80 : w.length = 80)
    (hs : (Header.from_bytes w).isSome = true) :
    (Header.from_bytes w).map (fun p => (p.1.rom_size, p.1.ram_size)) =
      some (0x400 * 2 ^ (w.getD 39 0 % 32) % 2 ^ 32,
        0x400 * 2 ^ (w.getD 40 0 % 32) % 2 ^ 32) := by
  rw [from_bytes_char w h80] at hs ⊢
  cases hrt : RomType.from_byte (w.getD 37 0 &&& 15) with
  | none => rw [hrt] at hs; simp at hs
  | some rt =>
    simp [specHeader, wrapShl32, Nat.shiftLeft_eq]

/-- Witness for C9's amended theorem at `windowR`. -/
theorem declared_sizes_witness :
    (Header.from_bytes windowR).map (fun p => (p.1.rom_size, p.1.ram_size)) =
      some (0x400 * 2 ^ (windowR.getD 39 0 % 32) % 2 ^ 32,
        0x400 * 2 ^ (windowR.getD 40 0 % 32) % 2 ^ 32) :=
  declared_sizes windowR (by decide) (by decide)

/-! ### C10: title trimming and per-character scoring -/

/-- C10 counterexample: on `windowT` (one unprintable byte, `'A'`, nineteen
trailing spaces) the stored name is `['A', ' ']` — a trailing space
survives, because the decoder truncates to `21 - trailingSpaces` characters
while the name had already shrunk to 20 printable characters. -/
theorem title_trimming_cex :
    (Header.from_bytes windowT).map (fun p => p.1.name) = some [0x41, 0x20] ∧
      ([0x41, 0x20] : List Nat) ≠ [0x41] :=
  ⟨by decide, by decide⟩

/-- C10 (amended): the stored title is the printable title bytes truncated
to `21 - (number of trailing raw spaces)` characters (which strips all
trailing spaces only when every title byte is printable), while the score
awards 2 per printable byte regardless of the trimming. -/
theorem title_trimming (w : List Nat) (h80 : w.length = 80)
    (hs : (Header.from_bytes w).isSome = true) :
    (Header.from_bytes w).map (fun p => (p.1.name, p.2)) =
      some (specName w, specScore w) := by
  rw [from_bytes_char w h80] at hs ⊢
  cases hrt : RomType.from_byte (w.getD 37 0 &&& 15) with
  | none => rw [hrt] at hs; simp at hs
  | some rt => rfl

/-- Witness for C10's amended theorem at `windowT`. -/
theorem title_trimming_witness :
    (Header.from_bytes windowT).map (fun p => (p.1.name, p.2)) =
      some (specName windowT, specScore windowT) :=
  title_trimming windowT (by decide) (by decide)

/-! ### Tiling lemmas -/

theorem tileChunks_length (bytes : List Nat) (hl : 0 < bytes.length) :
    ∀ n, (tileChunks bytes n).length = n := by
  intro n
  induction n using Nat.strong_induction_on with
  | _ n ih =>
    unfold tileChunks
    rw [if_neg (by omega)]
    by_cases hn : n < bytes.length
    · rw [if_pos hn, List.length_take]
      omega
    · rw [if_neg hn, List.length_append, ih (n - bytes.length) (by omega)]
      omega

theorem tileChunks_get (bytes : List Nat) (hl : 0 < bytes.length) :
    ∀ n k, k < n → (tileChunks bytes n)[k]? = bytes[k % bytes.length]? := by
  intro n
  induction n using Nat.strong_induction_on with
  | _ n ih =>
    intro k hk
    unfold tileChunks
    rw [if_neg (by omega)]
    by_cases hn : n < bytes.length
    · rw [if_pos hn, List.getElem?_take, if_pos hk, Nat.mod_eq_of_lt (by omega)]
    · rw [if_neg hn]
      by_cases hkl : k < bytes.length
      · rw [List.getElem?_append_left hkl, Nat.mod_eq_of_lt hkl]
      · rw [List.getElem?_append_right (by omega),
          ih (n - bytes.length) (by omega) (k - bytes.length) (by omega)]
        congr 1
        exact (Nat.mod_eq_sub_mod (by omega)).symm

theorem tileChunks_self (bytes : List Nat) (hl : 0 < bytes.length) :
    tileChunks bytes bytes.length = bytes := by
  unfold tileChunks
  rw [if_neg (by omega), if_neg (by omega), Nat.sub_self]
  unfold tileChunks
  rw [if_neg (by omega), if_pos hl]
  simp

/-! ### The scan loop invariant -/

/-- Invariant of the header-scan loop after the probes in `seen` have been
examined: a `none` accumulator means every seen probe failed to decode; a
`some` accumulator is a decoded candidate of one of the seen probes
carrying that probe's mapping-mode flag, with maximal score among the seen
probes. -/
def scanInv (bytes : List Nat) (seen : List (Nat × Bool)) :
    Option (Header × Nat × Bool) → Prop
  | none => ∀ p ∈ seen, decodeAt bytes p.1 = none
  | some (hd, s, l) =>
      (∃ p ∈ seen, p.2 = l ∧ decodeAt bytes p.1 = some (hd, s)) ∧
        ∀ p ∈ seen, ∀ hd' s', decodeAt bytes p.1 = some (hd', s') → s' ≤ s

theorem scanInv_foldl (bytes : List Nat) :
    ∀ (ps seen : List (Nat × Bool)) (acc : Option (Header × Nat × Bool)),
      scanInv bytes seen acc →
        scanInv bytes (seen ++ ps) (ps.foldl (scanStep bytes) acc) := by
  intro ps
  induction ps with
  | nil =>
    intro seen acc h
    simpa using h
  | cons p ps ih =>
    intro seen acc h
    rw [List.foldl_cons]
    have hstep : scanInv bytes (seen ++ [p]) (scanStep bytes acc p) := by
      unfold scanStep
      cases hd : decodeAt bytes p.1 with
      | none =>
        cases acc with
        | none =>
          intro q hq
          rcases List.mem_append.mp hq with hq | hq
          · exact h q hq
          · rw [List.mem_singleton.mp hq]
            exact hd
        | some t =>
          obtain ⟨h₁, s₁, l₁⟩ := t
          obtain ⟨⟨q, hq, hql, hqd⟩, hmax⟩ := h
          refine ⟨⟨q, List.mem_append_left _ hq, hql, hqd⟩, ?_⟩
          intro r hr hd' s' hrd
          rcases List.mem_append.mp hr with hr | hr
          · exact hmax r hr hd' s' hrd
          · rw [List.mem_singleton.mp hr] at hrd
            rw [hd] at hrd
            cases hrd
      | some t =>
        obtain ⟨hnew, snew⟩ := t
        cases acc with
        | none =>
          refine ⟨⟨p, List.mem_append_right _ (List.mem_singleton_self p), rfl, hd⟩, ?_⟩
          intro r hr hd' s' hrd
          rcases List.mem_append.mp hr with hr | hr
          · rw [h r hr] at hrd
            cases hrd
          · rw [List.mem_singleton.mp hr] at hrd
            rw [hd] at hrd
            injection hrd with he
            injection he with he1 he2
            omega
        | some t2 =>
          obtain ⟨h₁, s₁, l₁⟩ := t2
          obtain ⟨⟨q, hq, hql, hqd⟩, hmax⟩ := h
          show scanInv bytes (seen ++ [p])
            (if s₁ < snew then some (hnew, snew, p.2) else some (h₁, s₁, l₁))
          by_cases hlt : s₁ < snew
          · rw [if_pos hlt]
            refine ⟨⟨p, List.mem_append_right _ (List.mem_singleton_self p), rfl, hd⟩, ?_⟩
            intro r hr hd' s' hrd
            rcases List.mem_append.mp hr with hr | hr
            · exact Nat.le_of_lt (Nat.lt_of_le_of_lt (hmax r hr hd' s' hrd) hlt)
            · rw [List.mem_singleton.mp hr] at hrd
              rw [hd] at hrd
              injection hrd with he
              injection he with he1 he2
              omega
          · rw [if_neg hlt]
            refine ⟨⟨q, List.mem_append_left _ hq, hql, hqd⟩, ?_⟩
            intro r hr hd' s' hrd
            rcases List.mem_append.mp hr with hr | hr
            · exact hmax r hr hd' s' hrd
            · rw [List.mem_singleton.mp hr] at hrd
              rw [hd] at hrd
              injection hrd with he
              injection he with he1 he2
              omega
    have := ih (seen ++ [p]) _ hstep
    simpa [List.append_assoc] using this

/-! ### C1: probe flags and winner selection -/

/-- C1 counterexample: the second canonical offset `0xffb0` is recorded
with the 64 KiB-granularity flag (`false`), not the 32 KiB-granularity
flag (`true`) the claim asserts for the first two offsets. -/
theorem scan_flags_cex :
    headerProbes[1]? = some (0xffb0, false) ∧
      (some ((0xffb0 : Nat), false) : Option (Nat × Bool)) ≠ some (0xffb0, true) :=
  ⟨rfl, by decide⟩

/-- C1 (amended): the probe table associates the 32 KiB mode with the first
offset `0x7fb0` and the 64 KiB mode with `0xffb0` and `0x40ffb0`; the scan
returns a candidate decoded at one of the probes, carrying that probe's
flag, whose score is maximal over all probes; and a constructed cartridge
takes its mapping-mode flag and header from the scan winner. -/
theorem scan_winner (bytes : List Nat) :
    headerProbes = [(0x7fb0, true), (0xffb0, false), (0x40ffb0, false)] ∧
      (∀ hd s l, scanHeader bytes = some (hd, s, l) →
        (∃ p ∈ headerProbes, p.2 = l ∧ decodeAt bytes p.1 = some (hd, s)) ∧
          ∀ p ∈ headerProbes, ∀ hd' s', decodeAt bytes p.1 = some (hd', s') →
            s' ≤ s) ∧
      (∀ c warn, Cartridge.from_bytes bytes = .ok (c, warn) →
        ∃ hd s, scanHeader (strip bytes) = some (hd, s, c.is_lorom) ∧
          c.header = hd) := by
  refine ⟨rfl, ?_, ?_⟩
  · intro hd s l hscan
    have hbase : scanInv bytes [] none := by
      intro q hq
      cases hq
    have hinv := scanInv_foldl bytes headerProbes [] none hbase
    rw [List.nil_append] at hinv
    rw [show List.foldl (scanStep bytes) none headerProbes = scanHeader bytes
      from rfl, hscan] at hinv
    exact hinv
  · intro c warn h
    unfold Cartridge.from_bytes at h
    split at h
    · cases h
    split at h
    · cases h
    split at h
    · cases h
    · rename_i header score is_lorom heq
      injection h with h2
      rw [Prod.mk.injEq] at h2
      obtain ⟨hc, -⟩ := h2
      subst hc
      exact ⟨header, score, heq, rfl⟩

/-! ### C4: checksum verification is non-fatal -/

/-- C4: whenever the size checks pass and some probe decodes, construction
returns `ok` — the checksum comparison never aborts it — and the
diagnostic flag is set exactly when the wrapping mod-2^16 sum of every
byte of the filled ROM buffer differs from the header's stored checksum. -/
theorem checksum_nonfatal (bytes : List Nat)
    (h1 : MINIMUM_SIZE ≤ bytes.length) (h2 : bytes.length &&& 0x1ff = 0)
    (h3 : (scanHeader (strip bytes)).isSome = true) :
    ∃ c warn, Cartridge.from_bytes bytes = .ok (c, warn) ∧
      warn = (checksumOf c.rom != c.header.checksum) := by
  unfold Cartridge.from_bytes
  rw [if_neg (Nat.not_lt.mpr h1), if_neg (by simp [h2])]
  cases hscan : scanHeader (strip bytes) with
  | none =>
    rw [hscan] at h3
    cases h3
  | some t =>
    obtain ⟨header, score, is_lorom⟩ := t
    exact ⟨_, _, rfl, rfl⟩

/-! ### C5: the dump is tiled across the ROM buffer -/

/-- C5: on success the ROM buffer length is the maximum of the declared ROM
size and the (post copier-strip) dump length, and byte `k` of the ROM
buffer equals byte `k mod L` of the dump, `L` being the dump length. -/
theorem rom_tiling (bytes : List Nat) (c : Cartridge) (warn : Bool)
    (h : Cartridge.from_bytes bytes = .ok (c, warn)) :
    c.rom.length = max c.header.rom_size (strip bytes).length ∧
      ∀ k, k < c.rom.length →
        c.rom[k]? = (strip bytes)[k % (strip bytes).length]? := by
  unfold Cartridge.from_bytes at h
  split at h
  · cases h
  split at h
  · cases h
  rename_i hsize _halign
  have hsl : 0 < (strip bytes).length := by
    unfold MINIMUM_SIZE at hsize
    unfold strip
    split
    · omega
    · rw [List.length_drop]
      omega
  split at h
  · cases h
  · rename_i header score is_lorom heq
    injection h with h2
    rw [Prod.mk.injEq] at h2
    obtain ⟨hc, -⟩ := h2
    subst hc
    constructor
    · exact tileChunks_length (strip bytes) hsl _
    · intro k hk
      rw [tileChunks_length (strip bytes) hsl] at hk
      exact tileChunks_get (strip bytes) hsl _ k hk

/-! ### Concrete dumps -/

/-- A plausible LoRom header window: 21 `'A'` title bytes, LoRom mapping
byte, country 0, checksum 0 with complement `0xffff` (score 84). -/
def windowA : List Nat :=
  [0, 0, 0, 0, 0, 0, 0, 0, 0, 0, 0, 0, 0, 0, 0, 0,
   0x41, 0x41, 0x41, 0x41, 0x41, 0x41, 0x41, 0x41, 0x41, 0x41, 0x41,
   0x41, 0x41, 0x41, 0x41, 0x41, 0x41, 0x41, 0x41, 0x41, 0x41,
   0, 0, 0, 0, 0, 0, 0,
   0xff, 0xff, 0, 0,
   0, 0, 0, 0, 0, 0, 0, 0, 0, 0, 0, 0, 0, 0, 0, 0,
   0, 0, 0, 0, 0, 0, 0, 0, 0, 0, 0, 0, 0, 0, 0, 0]

/-- A plausible HiRom header window: 21 `'A'` title bytes, HiRom mapping
byte `0x01`, checksum `0x1234` with matching complement (score 84). -/
def windowB : List Nat :=
  [0, 0, 0, 0, 0, 0, 0, 0, 0, 0, 0, 0, 0, 0, 0, 0,
   0x41, 0x41, 0x41, 0x41, 0x41, 0x41, 0x41, 0x41, 0x41, 0x41, 0x41,
   0x41, 0x41, 0x41, 0x41, 0x41, 0x41, 0x41, 0x41, 0x41, 0x41,
   0x01, 0, 0, 0, 0, 0, 0,
   0xcb, 0xed, 0x34, 0x12,
   0, 0, 0, 0, 0, 0, 0, 0, 0, 0, 0, 0, 0, 0, 0, 0,
   0, 0, 0, 0, 0, 0, 0, 0, 0, 0, 0, 0, 0, 0, 0, 0]

/-- The header decoded from `windowA`. -/
def hdrA : Header := specHeader windowA RomType.LoRom

/-- The header decoded from `windowB`. -/
def hdrB : Header := specHeader windowB RomType.HiRom

/-- The header decoded from the all-zero window. -/
def hdrS0 : Header := specHeader windowS0 RomType.LoRom

/-- A minimal 32 KiB dump whose only header window sits at `0x7fb0`. -/
def dumpA : List Nat := List.replicate 0x7fb0 0 ++ windowA

/-- A 64 KiB dump whose best-scoring header window sits at the second
canonical offset `0xffb0` (the window at `0x7fb0` is all zeros and decodes
with score 10). -/
def dumpB : List Nat := List.replicate 0xffb0 0 ++ windowB

theorem windowA_length : windowA.length = 80 := rfl

theorem windowB_length : windowB.length = 80 := rfl

theorem dumpA_length : dumpA.length = 32768 := by
  unfold dumpA
  rw [List.length_append, List.length_replicate, windowA_length]

theorem dumpB_length : dumpB.length = 65536 := by
  unfold dumpB
  rw [List.length_append, List.length_replicate, windowB_length]

theorem dumpA_drop : dumpA.drop 0x7fb0 = windowA := by
  unfold dumpA
  rw [List.drop_append_of_le_length (by rw [List.length_replicate]),
    List.drop_replicate, Nat.sub_self]
  rfl

theorem dumpB_drop : dumpB.drop 0xffb0 = windowB := by
  unfold dumpB
  rw [List.drop_append_of_le_length (by rw [List.length_replicate]),
    List.drop_replicate, Nat.sub_self]
  rfl

theorem dumpB_drop80 : (dumpB.drop 0x7fb0).take 80 = windowS0 := by
  unfold dumpB
  rw [List.drop_append_of_le_length (by rw [List.length_replicate]; omega),
    List.drop_replicate,
    List.take_append_of_le_length (by rw [List.length_replicate]; omega),
    List.take_replicate]
  rfl

theorem strip_dumpA : strip dumpA = dumpA := by
  unfold strip
  rw [dumpA_length]
  rfl

theorem strip_dumpB : strip dumpB = dumpB := by
  unfold strip
  rw [dumpB_length]
  rfl

theorem decodeA1 : decodeAt dumpA 0x7fb0 = some (hdrA, 84) := by
  unfold decodeAt
  rw [if_pos (by have h := dumpA_length; omega), dumpA_drop, ← windowA_length,
    List.take_length]
  decide

theorem decodeA2 : decodeAt dumpA 0xffb0 = none := by
  unfold decodeAt
  rw [if_neg (by have h := dumpA_length; omega)]

theorem decodeA3 : decodeAt dumpA 0x40ffb0 = none := by
  unfold decodeAt
  rw [if_neg (by have h := dumpA_length; omega)]

theorem scanStep_none (bytes : List Nat) (addr : Nat) (fl : Bool)
    (acc : Option (Header × Nat × Bool)) (h : decodeAt bytes addr = none) :
    scanStep bytes acc (addr, fl) = acc := by
  unfold scanStep
  rw [h]

theorem scanStep_some_none (bytes : List Nat) (addr : Nat) (fl : Bool)
    (new : Header) (score : Nat) (h : decodeAt bytes addr = some (new, score)) :
    scanStep bytes none (addr, fl) = some (new, score, fl) := by
  unfold scanStep
  rw [h]

theorem scanStep_some_some (bytes : List Nat) (addr : Nat) (fl : Bool)
    (new old : Header) (score s : Nat) (l : Bool)
    (h : decodeAt bytes addr = some (new, score)) :
    scanStep bytes (some (old, s, l)) (addr, fl) =
      if s < score then some (new, score, fl) else some (old, s, l) := by
  unfold scanStep
  rw [h]

theorem scanHeader_eq (bytes : List Nat) :
    scanHeader bytes =
      scanStep bytes
        (scanStep bytes (scanStep bytes none (0x7fb0, true)) (0xffb0, false))
        (0x40ffb0, false) := rfl

theorem scanA : scanHeader dumpA = some (hdrA, 84, true) := by
  rw [scanHeader_eq,
    scanStep_some_none dumpA 0x7fb0 true hdrA 84 decodeA1,
    scanStep_none dumpA 0xffb0 false _ decodeA2,
    scanStep_none dumpA 0x40ffb0 false _ decodeA3]

theorem decodeB1 : decodeAt dumpB 0x7fb0 = some (hdrS0, 10) := by
  unfold decodeAt
  rw [if_pos (by have h := dumpB_length; omega), dumpB_drop80]
  decide

theorem decodeB2 : decodeAt dumpB 0xffb0 = some (hdrB, 84) := by
  unfold decodeAt
  rw [if_pos (by have h := dumpB_length; omega), dumpB_drop, ← windowB_length,
    List.take_length]
  decide

theorem decodeB3 : decodeAt dumpB 0x40ffb0 = none := by
  unfold decodeAt
  rw [if_neg (by have h := dumpB_length; omega)]

theorem scanB : scanHeader dumpB = some (hdrB, 84, false) := by
  rw [scanHeader_eq,
    scanStep_some_none dumpB 0x7fb0 true hdrS0 10 decodeB1,
    scanStep_some_some dumpB 0xffb0 false hdrB hdrS0 84 10 true decodeB2,
    if_pos (by norm_num),
    scanStep_none dumpB 0x40ffb0 false _ decodeB3]

/-- The cartridge built from `dumpA`. -/
def cartA : Cartridge :=
  ⟨hdrA, true, tileChunks dumpA (max hdrA.rom_size dumpA.length),
    List.replicate hdrA.ram_size 0⟩

/-- The checksum diagnostic flag of `dumpA`. -/
def warnA : Bool :=
  checksumOf (tileChunks dumpA (max hdrA.rom_size dumpA.length)) != hdrA.checksum

/-- The cartridge built from `dumpB`. -/
def cartB : Cartridge :=
  ⟨hdrB, false, tileChunks dumpB (max hdrB.rom_size dumpB.length),
    List.replicate hdrB.ram_size 0⟩

/-- The checksum diagnostic flag of `dumpB`. -/
def warnB : Bool :=
  checksumOf (tileChunks dumpB (max hdrB.rom_size dumpB.length)) != hdrB.checksum

theorem from_bytes_dumpA : Cartridge.from_bytes dumpA = .ok (cartA, warnA) := by
  have halign : dumpA.length &&& 0x1ff = 0 := by rw [dumpA_length]; decide
  have hmin : MINIMUM_SIZE = 32768 := rfl
  have hsize : ¬ dumpA.length < MINIMUM_SIZE := by
    have h := dumpA_length
    omega
  unfold Cartridge.from_bytes
  rw [if_neg hsize, if_neg (not_not_intro halign), strip_dumpA, scanA]
  rfl

theorem from_bytes_dumpB : Cartridge.from_bytes dumpB = .ok (cartB, warnB) := by
  have halign : dumpB.length &&& 0x1ff = 0 := by rw [dumpB_length]; decide
  have hmin : MINIMUM_SIZE = 32768 := rfl
  have hsize : ¬ dumpB.length < MINIMUM_SIZE := by
    have h := dumpB_length
    omega
  unfold Cartridge.from_bytes
  rw [if_neg hsize, if_neg (not_not_intro halign), strip_dumpB, scanB]
  rfl

/-- Witness for C1's amended theorem: `dumpB`'s winning header sits at the
second probe, and the constructed cartridge carries that probe's 64 KiB
flag. -/
theorem scan_winner_witness :
    ∃ hd s, scanHeader (strip dumpB) = some (hd, s, cartB.is_lorom) ∧
      cartB.header = hd :=
  (scan_winner dumpB).2.2 cartB warnB from_bytes_dumpB

/-- Witness for C4 at `dumpA` (whose stored checksum 0 disagrees with the
computed sum). -/
theorem checksum_nonfatal_witness :
    ∃ c warn, Cartridge.from_bytes dumpA = .ok (c, warn) ∧
      warn = (checksumOf c.rom != c.header.checksum) :=
  checksum_nonfatal dumpA
    (by have h := dumpA_length; have hmin : MINIMUM_SIZE = 32768 := rfl; omega)
    (by rw [dumpA_length]; decide) (by rw [strip_dumpA, scanA]; rfl)

/-- Witness for C5 at `dumpA`. -/
theorem rom_tiling_witness :
    cartA.rom.length = max cartA.header.rom_size (strip dumpA).length ∧
      ∀ k, k < cartA.rom.length →
        cartA.rom[k]? = (strip dumpA)[k % (strip dumpA).length]? :=
  rom_tiling dumpA cartA warnA from_bytes_dumpA

end Snes
